import Mathlib

/-!
Verification of the `bones` static-site generator (`src/gen.py`) against its
natural-language specification.  The Python code is shallowly embedded:
Python dicts become association lists over a YAML-like value type `Val`,
Python exceptions become `Except String`, and external libraries (file
system, markdown, YAML front-matter parsing) become explicit function
parameters.  All definitions are executable.
-/

namespace Bones

/-- Calendar date-times as produced by CPython `datetime.strptime` with the
`%Y-%m-%d %H:%M:%S %z` format: a naive civil time plus a UTC offset in
minutes (`tzMin`). -/
structure PyDatetime where
  year : Nat
  month : Nat
  day : Nat
  hour : Nat
  minute : Nat
  second : Nat
  tzMin : Int
deriving Repr, DecidableEq

/-- YAML-like values stored in the configuration tree and in documents:
strings, integers, booleans, parsed datetimes, `None`, mappings
(insertion-ordered, as Python dicts) and lists. -/
inductive Val where
  | vstr : String → Val
  | vint : Int → Val
  | vbool : Bool → Val
  | vdate : PyDatetime → Val
  | vnone : Val
  | vmap : List (String × Val) → Val
  | vlist : List Val → Val
deriving Repr

/-- A Python dict with string keys: an insertion-ordered association list. -/
abbrev Dict := List (String × Val)

/-- `d[k]` lookup: the first binding of `k` (Python dicts are duplicate-free,
so this is the binding). -/
def pgetVal (d : Dict) (k : String) : Option Val :=
  match d.find? (fun p => p.1 == k) with
  | some p => some p.2
  | none => none

/-- `d[k] = v` assignment: replace the first binding of `k` in place, or
append a new binding (Python dict update semantics). -/
def psetVal (d : Dict) (k : String) (v : Val) : Dict :=
  match d with
  | [] => [(k, v)]
  | (k', v') :: rest =>
    if k' == k then (k', v) :: rest else (k', v') :: psetVal rest k v

/-- `{**a, **b}` / `a.update(b)`: apply every binding of `b` to `a`. -/
def dictUpdate (a b : Dict) : Dict :=
  b.foldl (fun acc p => psetVal acc p.1 p.2) a

/-- Python truthiness of a value (`if value:`). -/
def pyTruthy : Val → Bool
  | .vstr s => !(s == "")
  | .vint n => !(n == 0)
  | .vbool b => b
  | .vdate _ => true
  | .vnone => false
  | .vmap m => !m.isEmpty
  | .vlist l => !l.isEmpty

/-- Lookup that expects a string value; non-string and absent both give the
default (documents produced by discovery store these keys as strings). -/
def pgetStrD (d : Dict) (k : String) (dflt : String) : String :=
  match pgetVal d k with
  | some (.vstr s) => s
  | _ => dflt

/-- Nested lookup along a path of keys starting from a value. -/
def getPathV (v : Val) : List String → Option Val
  | [] => some v
  | k :: rest =>
    match v with
    | .vmap m =>
      match pgetVal m k with
      | some v' => getPathV v' rest
      | none => none
    | _ => none

/-- Nested lookup along a dotted path, e.g. `config["content"]["posts"]`. -/
def getPath (d : Dict) (p : List String) : Option Val :=
  getPathV (.vmap d) p

/-- Nested update along a path; leaves the dict unchanged when the path does
not lead through mappings (callers only use existing paths). -/
def setPath (d : Dict) : List String → Val → Dict
  | [], _ => d
  | [k], v => psetVal d k v
  | k :: rest, v =>
    match pgetVal d k with
    | some (.vmap m) => psetVal d k (.vmap (setPath m rest v))
    | _ => d

/-! ### Python string helpers -/

/-- `s.lstrip(c)` for a single character. -/
def pyLStrip (c : Char) (s : String) : String :=
  String.mk (s.toList.dropWhile (· == c))

/-- `s.rstrip(c)` for a single character. -/
def pyRStrip (c : Char) (s : String) : String :=
  String.mk ((s.toList.reverse.dropWhile (· == c)).reverse)

/-- `s.strip(c)` for a single character. -/
def pyStrip (c : Char) (s : String) : String :=
  pyRStrip c (pyLStrip c s)

/-- Everything before the first occurrence of `c` (`s.split(c)[0]`). -/
def takeUntilChar (c : Char) (s : String) : String :=
  String.mk (s.toList.takeWhile (· != c))

/-- `s.startswith(pre)`. -/
def pyStartsWith (s pre : String) : Bool :=
  pre.toList.isPrefixOf s.toList

/-- `s.endswith(suf)`. -/
def pyEndsWith (s suf : String) : Bool :=
  suf.toList.isSuffixOf s.toList

/-- `s[n:]`. -/
def pyDrop (n : Nat) (s : String) : String :=
  String.mk (s.toList.drop n)

/-- `s[:n]` for `n ≤ len(s)`. -/
def pyTake (n : Nat) (s : String) : String :=
  String.mk (s.toList.take n)

/-- `len(s)` in characters. -/
def pyLen (s : String) : Nat :=
  s.toList.length

/-- Replace every non-overlapping occurrence of `pat`, left to right
(`s.replace(pat, rep)` for a non-empty pattern).  The fuel argument is the
input length: each step consumes at least one character. -/
def pyReplaceGo (pat rep : List Char) : Nat → List Char → List Char
  | _, [] => []
  | 0, l => l
  | fuel + 1, c :: cs =>
    if pat.isPrefixOf (c :: cs) then
      rep ++ pyReplaceGo pat rep fuel ((c :: cs).drop pat.length)
    else c :: pyReplaceGo pat rep fuel cs

/-- `s.replace(pat, rep)`; an empty pattern leaves `s` unchanged (the code
never replaces an empty pattern). -/
def pyReplaceAll (s pat rep : String) : String :=
  if pat.toList.isEmpty then s
  else String.mk (pyReplaceGo pat.toList rep.toList s.toList.length s.toList)

/-- Substring test (`sub in s`). -/
def containsSub (s sub : String) : Bool :=
  (s.toList.tails).any (fun t => sub.toList.isPrefixOf t)

/-- Number of whitespace-separated words (`len(s.split())`). -/
def wordCount (s : String) : Nat :=
  ((s.toList.splitOnP (fun c => c.isWhitespace)).filter (fun w => !w.isEmpty)).length

/-- Python `str.title()`: uppercase each letter that follows a non-letter,
lowercase the other letters. -/
def pyTitleGo : List Char → Bool → List Char
  | [], _ => []
  | c :: cs, prevAlpha =>
    (if c.isAlpha then (if prevAlpha then c.toLower else c.toUpper) else c)
      :: pyTitleGo cs c.isAlpha

/-- Python `str.title()`. -/
def pyTitle (s : String) : String :=
  String.mk (pyTitleGo s.toList false)

/-! ### Configuration merging (`merge_config_dicts`, gen.py lines 1287-1295)

`merge_config_dicts(target, source)` iterates over `source`; when both the
existing and the incoming value at a key are dicts it recurses, otherwise the
incoming value overwrites (or adds) the key. -/

mutual

/-- Deep merge `source` into `target`, as `merge_config_dicts` does:
one `mergeKey` step per `source` binding, in order. -/
def merge_config_dicts (target : Dict) : Dict → Dict
  | [] => target
  | (k, v) :: rest => merge_config_dicts (mergeKey target k v) rest
termination_by s => sizeOf s

/-- The body of the `merge_config_dicts` loop for one `(key, value)` pair of
`source`: recursive merge when both sides are dicts, overwrite otherwise. -/
def mergeKey (target : Dict) (k : String) : Val → Dict
  | .vmap sm =>
    match pgetVal target k with
    | some (.vmap tm) => psetVal target k (.vmap (merge_config_dicts tm sm))
    | _ => psetVal target k (.vmap sm)
  | v => psetVal target k v
termination_by v => sizeOf v

end

theorem pgetVal_psetVal_self (d : Dict) (k : String) (v : Val) :
    pgetVal (psetVal d k v) k = some v := by
  induction d with
  | nil => simp [psetVal, pgetVal]
  | cons p rest ih =>
    obtain ⟨k', v'⟩ := p
    by_cases h : k' == k
    · simp [psetVal, pgetVal, h, List.find?]
    · simp only [psetVal, h, Bool.false_eq_true, if_false]
      simpa [pgetVal, List.find?, h] using ih

theorem pgetVal_psetVal_ne (d : Dict) (k k' : String) (v : Val) (h : k ≠ k') :
    pgetVal (psetVal d k v) k' = pgetVal d k' := by
  have hkk' : (k == k') = false := by simpa using h
  induction d with
  | nil => simp [psetVal, pgetVal, List.find?, hkk']
  | cons p rest ih =>
    obtain ⟨k0, v0⟩ := p
    by_cases h0 : k0 == k
    · have h0' : k0 = k := by simpa using h0
      subst h0'
      simp [psetVal, pgetVal, List.find?, hkk']
    · simp only [psetVal, h0, Bool.false_eq_true, if_false]
      by_cases h1 : k0 == k'
      · simp [pgetVal, List.find?, h1]
      · simpa [pgetVal, List.find?, h0, h1] using ih

theorem pgetVal_mergeKey_ne (target : Dict) (k k' : String) (v : Val) (h : k ≠ k') :
    pgetVal (mergeKey target k v) k' = pgetVal target k' := by
  cases v <;> simp only [mergeKey] <;>
    first
      | exact pgetVal_psetVal_ne _ _ _ _ h
      | (cases htv : pgetVal target k with
         | none => simp only [htv]; exact pgetVal_psetVal_ne _ _ _ _ h
         | some tv =>
           cases tv <;> simp only [htv] <;> exact pgetVal_psetVal_ne _ _ _ _ h)

theorem pgetVal_mergeKey_self (target : Dict) (k : String) (v : Val) :
    pgetVal (mergeKey target k v) k =
      match v, pgetVal target k with
      | .vmap sm, some (.vmap tm) => some (.vmap (merge_config_dicts tm sm))
      | v, _ => some v := by
  cases v <;> simp only [mergeKey] <;> try simp [pgetVal_psetVal_self]
  cases htv : pgetVal target k with
  | none => simp [htv, pgetVal_psetVal_self]
  | some tv => cases tv <;> simp [htv, pgetVal_psetVal_self]

/-- Core characterization of the merge at one key: untouched keys keep the
existing value; a key present in `source` gets the incoming value, except
that two mappings are merged recursively. -/
theorem pgetVal_merge_config_dicts (source : Dict) :
    ∀ (target : Dict) (k : String), (source.map Prod.fst).Nodup →
    pgetVal (merge_config_dicts target source) k =
      match pgetVal source k, pgetVal target k with
      | none, tv => tv
      | some (.vmap sm), some (.vmap tm) => some (.vmap (merge_config_dicts tm sm))
      | some sv, _ => some sv := by
  induction source with
  | nil => intro target k _; simp [merge_config_dicts, pgetVal, List.find?]
  | cons p rest ih =>
    intro target k hnd
    obtain ⟨k0, v0⟩ := p
    rw [List.map_cons] at hnd
    have hnd0 := List.nodup_cons.mp hnd
    have hnd' : (rest.map Prod.fst).Nodup := hnd0.2
    have hk0rest : k0 ∉ rest.map Prod.fst := hnd0.1
    rw [merge_config_dicts, ih _ k hnd']
    by_cases hk : k = k0
    · subst hk
      have hrest : pgetVal rest k = none := by
        unfold pgetVal
        have hfind : rest.find? (fun p => p.1 == k) = none := by
          rw [List.find?_eq_none]
          intro q hq hbeq
          exact hk0rest (List.mem_map.mpr ⟨q, hq, by simpa using hbeq⟩)
        rw [hfind]
      have hsrc : pgetVal ((k, v0) :: rest) k = some v0 := by
        simp [pgetVal, List.find?]
      rw [hrest, hsrc, pgetVal_mergeKey_self]
      cases htv : pgetVal target k with
      | none => cases v0 <;> simp
      | some tv => cases tv <;> cases v0 <;> simp
    · have hsrc : pgetVal ((k0, v0) :: rest) k = pgetVal rest k := by
        have hne : (k0 == k) = false := by simpa using Ne.symm hk
        simp [pgetVal, List.find?, hne]
      rw [hsrc, pgetVal_mergeKey_ne _ _ _ _ (Ne.symm hk)]

/-- C3: during configuration merge, at every key: if both the existing and
the incoming value are mappings they merge recursively (existing keys
survive, new keys are added — key presence is the union); otherwise the
incoming value replaces the existing one; keys absent from the incoming dict
are untouched.  Concretely, merging `{a:{y:2}}` into `{a:{x:1}}` yields
`{a:{x:1,y:2}}` and merging `{a:{y:2}}` into `{a:1}` yields `{a:{y:2}}`. -/
theorem merge_config_dicts_spec (target source : Dict)
    (hnd : (source.map Prod.fst).Nodup) :
    (∀ k tm sm, pgetVal target k = some (.vmap tm) →
        pgetVal source k = some (.vmap sm) →
        pgetVal (merge_config_dicts target source) k =
          some (.vmap (merge_config_dicts tm sm))) ∧
    (∀ k v, pgetVal source k = some v →
        ((∀ sm, v ≠ .vmap sm) ∨ (∀ tm, pgetVal target k ≠ some (.vmap tm))) →
        pgetVal (merge_config_dicts target source) k = some v) ∧
    (∀ k, pgetVal source k = none →
        pgetVal (merge_config_dicts target source) k = pgetVal target k) ∧
    (∀ k, (pgetVal (merge_config_dicts target source) k).isSome
        ↔ ((pgetVal target k).isSome ∨ (pgetVal source k).isSome)) ∧
    merge_config_dicts [("a", .vmap [("x", .vint 1)])] [("a", .vmap [("y", .vint 2)])]
      = [("a", .vmap [("x", .vint 1), ("y", .vint 2)])] ∧
    merge_config_dicts [("a", .vint 1)] [("a", .vmap [("y", .vint 2)])]
      = [("a", .vmap [("y", .vint 2)])] := by
  refine ⟨?_, ?_, ?_, ?_, ?_, ?_⟩
  · intro k tm sm htm hsm
    rw [pgetVal_merge_config_dicts source target k hnd, hsm, htm]
  · intro k v hv hcase
    rw [pgetVal_merge_config_dicts source target k hnd, hv]
    rcases hcase with hnm | hnt
    · cases v with
      | vmap sm => exact absurd rfl (hnm sm)
      | vstr s => cases htv : pgetVal target k with
        | none => rfl
        | some tv => cases tv <;> rfl
      | vint n => cases htv : pgetVal target k with
        | none => rfl
        | some tv => cases tv <;> rfl
      | vbool b => cases htv : pgetVal target k with
        | none => rfl
        | some tv => cases tv <;> rfl
      | vdate d => cases htv : pgetVal target k with
        | none => rfl
        | some tv => cases tv <;> rfl
      | vnone => cases htv : pgetVal target k with
        | none => rfl
        | some tv => cases tv <;> rfl
      | vlist l => cases htv : pgetVal target k with
        | none => rfl
        | some tv => cases tv <;> rfl
    · cases htv : pgetVal target k with
      | none => cases v <;> rfl
      | some tv =>
        cases tv with
        | vmap tm => exact absurd htv (hnt tm)
        | vstr s => cases v <;> rfl
        | vint n => cases v <;> rfl
        | vbool b => cases v <;> rfl
        | vdate d => cases v <;> rfl
        | vnone => cases v <;> rfl
        | vlist l => cases v <;> rfl
  · intro k hnone
    rw [pgetVal_merge_config_dicts source target k hnd, hnone]
  · intro k
    rw [pgetVal_merge_config_dicts source target k hnd]
    cases hsv : pgetVal source k with
    | none => cases htv : pgetVal target k <;> simp
    | some sv =>
      cases htv : pgetVal target k with
      | none => cases sv <;> simp
      | some tv => cases sv <;> cases tv <;> simp
  · simp [merge_config_dicts, mergeKey, psetVal, pgetVal, List.find?]
  · simp [merge_config_dicts, mergeKey, psetVal, pgetVal, List.find?]

/-- Witness for `merge_config_dicts_spec` at the claim's own example. -/
theorem merge_config_dicts_spec_witness :
    pgetVal (merge_config_dicts [("a", Val.vmap [("x", Val.vint 1)])]
        [("a", Val.vmap [("y", Val.vint 2)])]) "a"
      = some (Val.vmap [("x", Val.vint 1), ("y", Val.vint 2)]) := by
  have h := (merge_config_dicts_spec [("a", .vmap [("x", .vint 1)])]
      [("a", .vmap [("y", .vint 2)])] (by simp)).1 "a"
      [("x", .vint 1)] [("y", .vint 2)] rfl rfl
  rw [h]
  simp [merge_config_dicts, mergeKey, psetVal, pgetVal, List.find?]

/-! ### Inserting one YAML fragment (`add_yml_content_to_config`, gen.py
lines 136-180)

Per YAML file the dotted config key is derived from its path; the code walks
`keys[:-1]` creating empty dicts as needed, unwraps a single-key top-level
mapping whose key equals `keys[-1]`, then merges (both sides dicts) or
assigns at `keys[-1]`. -/

/-- The "granular YAML" unwrap step (gen.py lines 157-165): a mapping with
exactly one key equal to the target key is replaced by its value; any other
content is kept as-is. -/
def unwrap_single_key (target_key : String) (yaml_content : Val) : Val :=
  match yaml_content with
  | .vmap [(k, v)] => if k == target_key then v else .vmap [(k, v)]
  | yc => yc

/-- Insertion of parsed YAML content at path `ks ++ [tk]` (`ks` is Python's
`keys[:-1]`, `tk` is `keys[-1]`).  A non-mapping intermediate value makes the
Python `in` test raise `TypeError`, which the caller turns into a config
error. -/
def add_yml_content_at (cfg : Dict) : List String → String → Val → Except String Dict
  | [], tk, yc =>
    match pgetVal cfg tk, unwrap_single_key tk yc with
    | some (.vmap t), .vmap s => .ok (psetVal cfg tk (.vmap (merge_config_dicts t s)))
    | _, yc' => .ok (psetVal cfg tk yc')
  | k :: rest, tk, yc =>
    match pgetVal cfg k with
    | none => (add_yml_content_at [] rest tk yc).map (fun sub => psetVal cfg k (.vmap sub))
    | some (.vmap m) =>
      (add_yml_content_at m rest tk yc).map (fun sub => psetVal cfg k (.vmap sub))
    | some _ => .error "TypeError: membership test on a non-mapping config value"

/-- One YAML fragment applied to the config (`add_yml_content_to_config`
loop body): falsy parsed YAML is skipped (`if yaml_content:`), otherwise the
content is inserted at the file's path-derived dotted key. -/
def add_yml_fragment (cfg : Dict) (config_key : String) (yc : Val) : Except String Dict :=
  if pyTruthy yc then
    match (config_key.splitOn ".").reverse with
    | [] => .ok cfg
    | tk :: revRest => add_yml_content_at cfg revRest.reverse tk yc
  else .ok cfg

/-- The navigation in `add_yml_content_at` stays on fresh or mapping values
and the final slot is unoccupied. -/
def pathClear (cfg : Dict) : List String → String → Bool
  | [], tk => (pgetVal cfg tk).isNone
  | k :: rest, tk =>
    match pgetVal cfg k with
    | none => true
    | some (.vmap m) => pathClear m rest tk
    | some _ => false

theorem pathClear_nil (ks : List String) (tk : String) : pathClear [] ks tk = true := by
  cases ks <;> simp [pathClear, pgetVal, List.find?]

theorem getPath_cons (d : Dict) (k : String) (rest : List String) :
    getPath d (k :: rest) =
      match pgetVal d k with
      | some v' => getPathV v' rest
      | none => none := by
  simp [getPath, getPathV]

/-- C4: a YAML fragment whose parsed top level is a mapping with exactly one
key is unwrapped (its value becomes the content stored at the dotted target
path) if and only if that single key equals the last segment `tk` of the
path-derived key; a non-matching single-key mapping is kept (and, when the
existing value at the path is a mapping, merged) as-is without unwrapping. -/
theorem add_yml_single_key_unwrap_spec (ks : List String) :
    ∀ (cfg : Dict) (tk k : String) (v : Val),
    (pathClear cfg ks tk = true →
      (add_yml_content_at cfg ks tk (.vmap [(k, v)])).map
          (fun cfg' => getPath cfg' (ks ++ [tk]))
        = .ok (some (if k = tk then v else .vmap [(k, v)]))) ∧
    (∀ e, getPath cfg (ks ++ [tk]) = some (.vmap e) → k ≠ tk →
      (add_yml_content_at cfg ks tk (.vmap [(k, v)])).map
          (fun cfg' => getPath cfg' (ks ++ [tk]))
        = .ok (some (.vmap (merge_config_dicts e [(k, v)])))) := by
  induction ks with
  | nil =>
    intro cfg tk k v
    constructor
    · intro hpc
      have hn : pgetVal cfg tk = none := by
        simpa [pathClear, Option.isNone_iff_eq_none] using hpc
      by_cases hkt : k = tk
      · subst hkt
        simp only [add_yml_content_at, unwrap_single_key, beq_self_eq_true, if_true, hn]
        cases v <;>
          simp [getPath, getPathV, pgetVal_psetVal_self, List.nil_append, Except.map]
      · have hbeq : (k == tk) = false := by simpa using hkt
        simp [add_yml_content_at, unwrap_single_key, hbeq, hn, getPath, getPathV,
          pgetVal_psetVal_self, hkt, Except.map]
    · intro e he hkt
      have hbeq : (k == tk) = false := by simpa using hkt
      have hme : pgetVal cfg tk = some (.vmap e) := by
        simp only [List.nil_append, getPath, getPathV] at he
        cases hg : pgetVal cfg tk with
        | none => rw [hg] at he; exact absurd he (by simp)
        | some v' =>
          rw [hg] at he
          cases v' <;> simp_all [getPathV]
      simp [add_yml_content_at, unwrap_single_key, hbeq, hme, getPath, getPathV,
        pgetVal_psetVal_self, hkt, Except.map]
  | cons k0 ks' ih =>
    intro cfg tk k v
    constructor
    · intro hpc
      cases hg : pgetVal cfg k0 with
      | none =>
        have hA := (ih [] tk k v).1 (pathClear_nil ks' tk)
        cases hrec : add_yml_content_at [] ks' tk (.vmap [(k, v)]) with
        | error e => rw [hrec] at hA; exact absurd hA (by simp [Except.map])
        | ok sub =>
          rw [hrec] at hA
          simp only [Except.map] at hA
          have hsub := Except.ok.inj hA
          simp only [add_yml_content_at, hg, hrec, Except.map, List.cons_append]
          rw [getPath_cons, pgetVal_psetVal_self]
          simp only [getPath] at hsub
          simp [hsub]
      | some v0 =>
        cases v0 with
        | vmap m =>
          have hpc' : pathClear m ks' tk = true := by
            simpa [pathClear, hg] using hpc
          have hA := (ih m tk k v).1 hpc'
          cases hrec : add_yml_content_at m ks' tk (.vmap [(k, v)]) with
          | error e => rw [hrec] at hA; exact absurd hA (by simp [Except.map])
          | ok sub =>
            rw [hrec] at hA
            simp only [Except.map] at hA
            have hsub := Except.ok.inj hA
            simp only [add_yml_content_at, hg, hrec, Except.map, List.cons_append]
            rw [getPath_cons, pgetVal_psetVal_self]
            simp only [getPath] at hsub
            simp [hsub]
        | vstr s => simp [pathClear, hg] at hpc
        | vint n => simp [pathClear, hg] at hpc
        | vbool b => simp [pathClear, hg] at hpc
        | vdate d => simp [pathClear, hg] at hpc
        | vnone => simp [pathClear, hg] at hpc
        | vlist l => simp [pathClear, hg] at hpc
    · intro e he hkt
      obtain ⟨x, xs, hxs⟩ : ∃ x xs, ks' ++ [tk] = x :: xs := by
        cases ks' <;> exact ⟨_, _, rfl⟩
      rw [List.cons_append, getPath_cons] at he
      cases hg : pgetVal cfg k0 with
      | none => rw [hg] at he; exact absurd he (by simp)
      | some v0 =>
        rw [hg] at he
        cases v0 with
        | vmap m =>
          have he' : getPath m (ks' ++ [tk]) = some (.vmap e) := he
          have hB := (ih m tk k v).2 e he' hkt
          cases hrec : add_yml_content_at m ks' tk (.vmap [(k, v)]) with
          | error e' => rw [hrec] at hB; exact absurd hB (by simp [Except.map])
          | ok sub =>
            rw [hrec] at hB
            simp only [Except.map] at hB
            have hsub := Except.ok.inj hB
            simp only [add_yml_content_at, hg, hrec, Except.map, List.cons_append]
            rw [getPath_cons, pgetVal_psetVal_self]
            simp only [getPath] at hsub
            simp [hsub]
        | vstr s => rw [hxs] at he; exact absurd he (by simp [getPathV])
        | vint n => rw [hxs] at he; exact absurd he (by simp [getPathV])
        | vbool b => rw [hxs] at he; exact absurd he (by simp [getPathV])
        | vdate d => rw [hxs] at he; exact absurd he (by simp [getPathV])
        | vnone => rw [hxs] at he; exact absurd he (by simp [getPathV])
        | vlist l => rw [hxs] at he; exact absurd he (by simp [getPathV])

/-- Witness for `add_yml_single_key_unwrap_spec`: a fresh config, a fragment
`{pages: "X"}` inserted at `content.pages`, whose single key matches the last
segment and is therefore unwrapped. -/
theorem add_yml_single_key_unwrap_witness :
    (add_yml_content_at [] ["content"] "pages" (Val.vmap [("pages", Val.vstr "X")])).map
        (fun cfg' => getPath cfg' ["content", "pages"])
      = .ok (some (Val.vstr "X")) := by
  simpa using
    (add_yml_single_key_unwrap_spec ["content"] [] "pages" "pages" (Val.vstr "X")).1 rfl

/-! ### Dates (`add_dates_to_doc`, gen.py lines 485-509)

`datetime.strptime(value, "%Y-%m-%d %H:%M:%S %z")` is external library code;
it is modelled here for the canonical fixed-width form of that format
(`YYYY-MM-DD HH:MM:SS ±ZZZZ`, 25 characters), including CPython's calendar
validation and its strict 24-hour bound on the UTC offset. -/

def isLeapYear (y : Nat) : Bool :=
  (y % 4 == 0 && y % 100 != 0) || y % 400 == 0

def daysInMonth (y m : Nat) : Nat :=
  if m = 2 then (if isLeapYear y then 29 else 28)
  else if m = 4 ∨ m = 6 ∨ m = 9 ∨ m = 11 then 30
  else 31

/-- Two digits to a number, validity checked by the caller. -/
def dig2 (a b : Char) : Nat :=
  (a.toNat - 48) * 10 + (b.toNat - 48)

/-- `datetime.strptime(s, "%Y-%m-%d %H:%M:%S %z")` on the canonical-width
form of the format. -/
def strptime_std (s : String) : Option PyDatetime :=
  match s.toList with
  | [y1, y2, y3, y4, '-', m1, m2, '-', d1, d2, ' ',
     h1, h2, ':', n1, n2, ':', s1, s2, ' ', sg, z1, z2, z3, z4] =>
    if [y1, y2, y3, y4, m1, m2, d1, d2, h1, h2, n1, n2, s1, s2, z1, z2, z3, z4].all
        (fun c => c.isDigit) && (sg == '+' || sg == '-') then
      let y := dig2 y1 y2 * 100 + dig2 y3 y4
      let mo := dig2 m1 m2
      let d := dig2 d1 d2
      let h := dig2 h1 h2
      let mi := dig2 n1 n2
      let se := dig2 s1 s2
      let offAbs := dig2 z1 z2 * 60 + dig2 z3 z4
      if 1 ≤ mo && mo ≤ 12 && 1 ≤ d && d ≤ daysInMonth y mo &&
          h ≤ 23 && mi ≤ 59 && se ≤ 59 && offAbs < 1440 then
        some ⟨y, mo, d, h, mi, se, if sg == '-' then -(offAbs : Int) else (offAbs : Int)⟩
      else none
    else none
  | _ => none

/-- Zero-pad to two digits (`%d`, `%m`, `%H`, `%M`, `%S`). -/
def fmt2 (n : Nat) : String :=
  if n < 10 then "0" ++ toString n else toString n

/-- Zero-pad to four digits (`%Y`). -/
def fmt4 (n : Nat) : String :=
  if n < 10 then "000" ++ toString n
  else if n < 100 then "00" ++ toString n
  else if n < 1000 then "0" ++ toString n
  else toString n

/-- `strftime("%d.%m.%Y")`. -/
def strftime_dmY (d : PyDatetime) : String :=
  fmt2 d.day ++ "." ++ fmt2 d.month ++ "." ++ fmt4 d.year

/-- `strftime("%z")`: sign plus `HHMM`. -/
def tzStr (off : Int) : String :=
  (if off < 0 then "-" else "+") ++ fmt2 (off.natAbs / 60) ++ fmt2 (off.natAbs % 60)

/-- `datetime.isoformat()` for whole-second aware datetimes. -/
def isoformat (d : PyDatetime) : String :=
  fmt4 d.year ++ "-" ++ fmt2 d.month ++ "-" ++ fmt2 d.day ++ "T" ++
    fmt2 d.hour ++ ":" ++ fmt2 d.minute ++ ":" ++ fmt2 d.second ++
    (if d.tzMin < 0 then "-" else "+") ++
    fmt2 (d.tzMin.natAbs / 60) ++ ":" ++ fmt2 (d.tzMin.natAbs % 60)

/-- Day of week by Sakamoto's method, 0 = Sunday. -/
def dayOfWeek (y m d : Nat) : Nat :=
  let t := [0, 3, 2, 5, 0, 3, 5, 1, 4, 6, 2, 4]
  let y' := if m < 3 then y - 1 else y
  (y' + y' / 4 + y' / 400 + t.getD (m - 1) 0 + d - y' / 100) % 7

def weekdayAbbr (w : Nat) : String :=
  ["Sun", "Mon", "Tue", "Wed", "Thu", "Fri", "Sat"].getD w "??"

def monthAbbr (m : Nat) : String :=
  ["Jan", "Feb", "Mar", "Apr", "May", "Jun",
   "Jul", "Aug", "Sep", "Oct", "Nov", "Dec"].getD (m - 1) "??"

/-- `strftime("%a, %d %b %Y %H:%M:%S %z")` (the RFC-822-style feed date). -/
def strftime_rfc822 (d : PyDatetime) : String :=
  weekdayAbbr (dayOfWeek d.year d.month d.day) ++ ", " ++ fmt2 d.day ++ " " ++
    monthAbbr d.month ++ " " ++ fmt4 d.year ++ " " ++ fmt2 d.hour ++ ":" ++
    fmt2 d.minute ++ ":" ++ fmt2 d.second ++ " " ++ tzStr d.tzMin

/-- The four date-field assignments at the end of `add_dates_to_doc`
(gen.py lines 504-507). -/
def setDates (doc : Dict) (d : PyDatetime) : Dict :=
  psetVal (psetVal (psetVal (psetVal doc "date" (.vdate d))
    "date_html" (.vstr (strftime_dmY d)))
    "date_iso" (.vstr (isoformat d)))
    "date_xml_feed" (.vstr (strftime_rfc822 d))

/-- `add_dates_to_doc` (gen.py lines 485-509): require a truthy `date`,
accept a structured datetime or a string parsed with the fixed format, then
derive `date_html`, `date_iso` and `date_xml_feed`.  The text of the wrapped
parse exception is abstracted to a fixed suffix. -/
def add_dates_to_doc (doc : Dict) (file_path : String) : Except String Dict :=
  match pgetVal doc "date" with
  | none => .error ("Missing required 'date' field in " ++ file_path)
  | some dv =>
    if !pyTruthy dv then .error ("Missing required 'date' field in " ++ file_path)
    else
      match dv with
      | .vdate d => .ok (setDates doc d)
      | .vstr s =>
        match strptime_std s with
        | some d => .ok (setDates doc d)
        | none =>
          .error ("Failed to parse date '" ++ s ++ "' for " ++ file_path ++
            ": time data does not match format")
      | _ => .error ("Failed to parse date for " ++ file_path ++ ": TypeError")

theorem pgetVal_setDates (doc : Dict) (d : PyDatetime) :
    pgetVal (setDates doc d) "date_html" = some (.vstr (strftime_dmY d)) ∧
    pgetVal (setDates doc d) "date_iso" = some (.vstr (isoformat d)) ∧
    pgetVal (setDates doc d) "date_xml_feed" = some (.vstr (strftime_rfc822 d)) := by
  unfold setDates
  refine ⟨?_, ?_, ?_⟩
  · rw [pgetVal_psetVal_ne _ _ _ _ (by decide), pgetVal_psetVal_ne _ _ _ _ (by decide),
      pgetVal_psetVal_self]
  · rw [pgetVal_psetVal_ne _ _ _ _ (by decide), pgetVal_psetVal_self]
  · rw [pgetVal_psetVal_self]

/-- C7: date enrichment requires a `date` field, accepts an already-structured
datetime or a string in the fixed `YYYY-MM-DD HH:MM:SS ±ZZZZ` format, fails
with an error naming the file when the date is missing or unparseable, and on
success derives `date_html` in `DD.MM.YYYY` form, `date_iso`, and the
RFC-822-style `date_xml_feed`; in particular
`"2024-03-01 10:00:00 +0000"` yields `date_html = "01.03.2024"`. -/
theorem add_dates_to_doc_spec :
    (∀ (doc : Dict) (fp : String), pgetVal doc "date" = none →
      add_dates_to_doc doc fp = .error ("Missing required 'date' field in " ++ fp)) ∧
    (∀ (doc : Dict) (fp : String) (d : PyDatetime), pgetVal doc "date" = some (.vdate d) →
      (add_dates_to_doc doc fp).map
          (fun d' => (pgetVal d' "date_html", pgetVal d' "date_iso", pgetVal d' "date_xml_feed"))
        = .ok (some (.vstr (strftime_dmY d)), some (.vstr (isoformat d)),
            some (.vstr (strftime_rfc822 d)))) ∧
    (∀ (doc : Dict) (fp s : String), pgetVal doc "date" = some (.vstr s) → s ≠ "" →
      strptime_std s = none →
      add_dates_to_doc doc fp = .error ("Failed to parse date '" ++ s ++ "' for " ++ fp ++
        ": time data does not match format")) ∧
    (∀ (doc : Dict) (fp s : String) (d : PyDatetime), pgetVal doc "date" = some (.vstr s) →
      strptime_std s = some d →
      (add_dates_to_doc doc fp).map
          (fun d' => (pgetVal d' "date_html", pgetVal d' "date_iso", pgetVal d' "date_xml_feed"))
        = .ok (some (.vstr (strftime_dmY d)), some (.vstr (isoformat d)),
            some (.vstr (strftime_rfc822 d)))) ∧
    strptime_std "2024-03-01 10:00:00 +0000" = some ⟨2024, 3, 1, 10, 0, 0, 0⟩ ∧
    strftime_dmY ⟨2024, 3, 1, 10, 0, 0, 0⟩ = "01.03.2024" ∧
    isoformat ⟨2024, 3, 1, 10, 0, 0, 0⟩ = "2024-03-01T10:00:00+00:00" ∧
    strftime_rfc822 ⟨2024, 3, 1, 10, 0, 0, 0⟩ = "Fri, 01 Mar 2024 10:00:00 +0000" := by
  refine ⟨?_, ?_, ?_, ?_, by decide, by decide, by decide, by decide⟩
  · intro doc fp h
    simp [add_dates_to_doc, h]
  · intro doc fp d h
    have hs := pgetVal_setDates doc d
    simp [add_dates_to_doc, h, pyTruthy, Except.map, hs.1, hs.2.1, hs.2.2]
  · intro doc fp s h hne hparse
    have hbeq : (s == "") = false := by simpa using hne
    simp [add_dates_to_doc, h, pyTruthy, hbeq, hparse]
  · intro doc fp s d h hparse
    have hne : s ≠ "" := by
      intro hempty
      rw [hempty] at hparse
      exact absurd hparse (by simp [strptime_std])
    have hbeq : (s == "") = false := by simpa using hne
    have hs := pgetVal_setDates doc d
    simp [add_dates_to_doc, h, pyTruthy, hbeq, hparse, Except.map, hs.1, hs.2.1, hs.2.2]

/-- Witness for `add_dates_to_doc_spec` on a concrete document carrying the
spec's example date string. -/
theorem add_dates_to_doc_spec_witness :
    (add_dates_to_doc [("date", Val.vstr "2024-03-01 10:00:00 +0000")] "post.md").map
        (fun d' => (pgetVal d' "date_html", pgetVal d' "date_iso", pgetVal d' "date_xml_feed"))
      = .ok (some (.vstr "01.03.2024"), some (.vstr "2024-03-01T10:00:00+00:00"),
          some (.vstr "Fri, 01 Mar 2024 10:00:00 +0000")) := by
  have h := add_dates_to_doc_spec.2.2.2.1 [("date", Val.vstr "2024-03-01 10:00:00 +0000")]
      "post.md" "2024-03-01 10:00:00 +0000" ⟨2024, 3, 1, 10, 0, 0, 0⟩ rfl (by decide)
  exact h

/-! ### The parallel task runner (`parallelize`, gen.py lines 1305-1334)

The bounded thread pool is abstracted away: the input list is taken in the
order the futures complete (`as_completed`), each worker result is a value or
a raised exception (`Except.error`), falsy results are skipped
(`if result:`), and the first raised exception makes the whole call fail with
a single wrapped `RuntimeError`. -/

def parallelize {α β : Type} (truthy : β → Bool) (description : String)
    (processor : α → Except String β) : List α → Except String (List β)
  | [] => .ok []
  | i :: rest =>
    match processor i with
    | .error e => .error ("Failed to parallelize " ++ description ++ ": " ++ e)
    | .ok r =>
      match parallelize truthy description processor rest with
      | .error e => .error e
      | .ok rs => .ok (if truthy r then r :: rs else rs)

/-- C2 counterexample: two workers both throw, yet the run fails with only
the first task's wrapped error — the second offending task's error is not
enumerated anywhere in the reported message. -/
theorem parallelize_single_error_counterexample :
    parallelize (fun _ : Nat => true) "documents"
        (fun n => if n == 0 then (Except.error "boom0" : Except String Nat)
          else .error "boom1") [0, 1]
      = .error "Failed to parallelize documents: boom0" ∧
    containsSub "Failed to parallelize documents: boom0" "boom1" = false := by
  exact ⟨rfl, by decide⟩

/-- C2 (amended): when one or more workers throw, `parallelize` fails with a
single `RuntimeError` wrapping exactly the first failing task's error (in
completion order); the remaining failures are not collected or enumerated. -/
theorem parallelize_first_error_spec {α β : Type} (truthy : β → Bool)
    (description : String) (processor : α → Except String β)
    (pre post : List α) (i : α) (e : String)
    (hpre : ∀ j ∈ pre, ∃ r, processor j = .ok r)
    (hi : processor i = .error e) :
    parallelize truthy description processor (pre ++ i :: post)
      = .error ("Failed to parallelize " ++ description ++ ": " ++ e) := by
  induction pre with
  | nil => simp [parallelize, hi]
  | cons a as ih =>
    obtain ⟨r, hr⟩ := hpre a (by simp)
    have ih' := ih (fun j hj => hpre j (by simp [hj]))
    simp [parallelize, hr, ih']

/-- Witness for `parallelize_first_error_spec`: one succeeding worker, then a
failing one. -/
theorem parallelize_first_error_spec_witness :
    parallelize (fun _ : Nat => true) "items"
        (fun n => if n == 5 then (Except.ok n : Except String Nat) else .error "kaput")
        [5, 9]
      = .error "Failed to parallelize items: kaput" := by
  have h := parallelize_first_error_spec (fun _ : Nat => true) "items"
      (fun n => if n == 5 then (Except.ok n : Except String Nat) else .error "kaput")
      [5] [] 9 "kaput" (by intro j hj; simp at hj; subst hj; exact ⟨5, rfl⟩) (by simp)
  exact h

/-! ### URL uniqueness validation (`validate_content_urls`, gen.py
lines 667-696)

The loop walks posts then pages, collects an error string per missing or
duplicate URL (also logging the offending content type and title), and raises
a single aggregated `ValueError` when any error was collected.  Python
formats non-string titles with `str()`; titles and URLs are modelled for
string values, which is what the pipeline produces. -/

/-- `title = result.get("title", result.get("name", "??"))`. -/
def docTitle (doc : Dict) : String :=
  match pgetVal doc "title" with
  | some (.vstr t) => t
  | _ => pgetStrD doc "name" "??"

/-- The accumulation loop of `validate_content_urls`: seen URLs and error
strings, both in traversal order. -/
def validateUrlsGo : List Dict → List String → List String → List String
  | [], _, errs => errs
  | doc :: rest, allUrls, errs =>
    match pgetVal doc "url" with
    | some (.vstr u) =>
      if u = "" then
        validateUrlsGo rest allUrls
          (errs ++ [pyTitle (pgetStrD doc "content_type" "??") ++ " '" ++ docTitle doc ++
            "' missing URL"])
      else if u ∈ allUrls then
        validateUrlsGo rest allUrls
          (errs ++ ["Duplicate URL '" ++ u ++ "' found for " ++
            pgetStrD doc "content_type" "??" ++ " '" ++ docTitle doc ++ "'"])
      else
        validateUrlsGo rest (allUrls ++ [u]) errs
    | _ =>
      validateUrlsGo rest allUrls
        (errs ++ [pyTitle (pgetStrD doc "content_type" "??") ++ " '" ++ docTitle doc ++
          "' missing URL"])

/-- `validate_content_urls` over the concatenated posts and pages item
lists. -/
def validate_content_urls (all_content : List Dict) : Except String Unit :=
  match validateUrlsGo all_content [] [] with
  | [] => .ok ()
  | errs => .error ("Content configuration validation failed:\n" ++
      String.join (errs.map (fun e => "  " ++ e ++ "\n")))

/-- C5 counterexample: two posts titled `Alpha` and `Beta` sharing one URL.
The build fails, but the duplicate-URL error names only the second
(colliding) title — `Alpha`, the first occurrence, appears nowhere in the
message, so the error does not name both titles. -/
theorem validate_content_urls_counterexample :
    validate_content_urls
        [[("name", .vstr "post-a"), ("title", .vstr "Alpha"),
          ("content_type", .vstr "posts"), ("url", .vstr "shared-url")],
         [("name", .vstr "post-b"), ("title", .vstr "Beta"),
          ("content_type", .vstr "posts"), ("url", .vstr "shared-url")]]
      = .error
          "Content configuration validation failed:\n  Duplicate URL 'shared-url' found for posts 'Beta'\n" ∧
    containsSub
        "Content configuration validation failed:\n  Duplicate URL 'shared-url' found for posts 'Beta'\n"
        "Beta" = true ∧
    containsSub
        "Content configuration validation failed:\n  Duplicate URL 'shared-url' found for posts 'Beta'\n"
        "Alpha" = false := by
  refine ⟨rfl, by decide, by decide⟩

/-- Helper for the all-distinct pass case: with string, non-empty, mutually
distinct URLs that also avoid the accumulator, the loop adds no errors. -/
theorem validateUrlsGo_ok (docs : List Dict) :
    ∀ (urls acc errs : List String),
    docs.map (fun d => pgetVal d "url") = urls.map (fun u => some (.vstr u)) →
    urls.Nodup → (∀ u ∈ urls, u ≠ "" ∧ u ∉ acc) →
    validateUrlsGo docs acc errs = errs := by
  induction docs with
  | nil =>
    intro urls acc errs hmap _ _
    cases urls with
    | nil => rfl
    | cons u us => exact absurd hmap (by simp)
  | cons d ds ih =>
    intro urls acc errs hmap hnd hok
    cases urls with
    | nil => exact absurd hmap (by simp)
    | cons u us =>
      simp only [List.map_cons, List.cons.injEq] at hmap
      obtain ⟨hd, hds⟩ := hmap
      obtain ⟨hu, hacc⟩ := hok u (by simp)
      have hne : ¬(u = "") := hu
      simp only [validateUrlsGo, hd, hne, if_false, hacc, if_false]
      apply ih us (acc ++ [u]) errs hds (by
        exact (List.nodup_cons.mp hnd).2)
      intro v hv
      refine ⟨(hok v (by simp [hv])).1, ?_⟩
      intro hvmem
      rcases List.mem_append.mp hvmem with h1 | h1
      · exact (hok v (by simp [hv])).2 h1
      · have : v = u := by simpa using h1
        subst this
        exact (List.nodup_cons.mp hnd).1 hv

/-- C5 (amended): URL validation collects one error per missing or duplicate
URL and fails with a single aggregated message enumerating them all, naming
each offending item's content type and title; a duplicate-URL error names the
later colliding item's title (the first occurrence is not named); a build in
which every URL is present and pairwise distinct passes. -/
theorem validate_content_urls_spec (docs : List Dict) (urls : List String)
    (hmap : docs.map (fun d => pgetVal d "url") = urls.map (fun u => some (.vstr u)))
    (hnd : urls.Nodup) (hne : ∀ u ∈ urls, u ≠ "") :
    validate_content_urls docs = .ok () ∧
    validate_content_urls
        [[("name", .vstr "n1"), ("title", .vstr "T1"), ("content_type", .vstr "posts")],
         [("name", .vstr "n2"), ("title", .vstr "T2"), ("content_type", .vstr "pages")]]
      = .error
          "Content configuration validation failed:\n  Posts 'T1' missing URL\n  Pages 'T2' missing URL\n" ∧
    validate_content_urls
        [[("title", .vstr "First"), ("content_type", .vstr "posts"), ("url", .vstr "u")],
         [("title", .vstr "Second"), ("content_type", .vstr "posts"), ("url", .vstr "u")]]
      = .error
          "Content configuration validation failed:\n  Duplicate URL 'u' found for posts 'Second'\n" := by
  refine ⟨?_, rfl, rfl⟩
  unfold validate_content_urls
  rw [validateUrlsGo_ok docs urls [] [] hmap hnd (fun u hu => ⟨hne u hu, by simp⟩)]

/-- Witness for `validate_content_urls_spec`: two documents with distinct
non-empty URLs pass validation. -/
theorem validate_content_urls_spec_witness :
    validate_content_urls
        [[("title", .vstr "A"), ("content_type", .vstr "posts"), ("url", .vstr "a")],
         [("title", .vstr "B"), ("content_type", .vstr "posts"), ("url", .vstr "b")]]
      = .ok () := by
  have h := (validate_content_urls_spec
      [[("title", .vstr "A"), ("content_type", .vstr "posts"), ("url", .vstr "a")],
       [("title", .vstr "B"), ("content_type", .vstr "posts"), ("url", .vstr "b")]]
      ["a", "b"] rfl (by decide) (by decide)).1
  exact h

/-! ### URLs and output paths (`add_url_to_doc` gen.py lines 458-482,
`save_doc` gen.py lines 916-940)

`add_url_to_doc` seeds `url` from `target_file`, requires a `language`, and
unless the language sets `skip_language_path_in_url` prefixes both `url` and
`target_file` with `{language}/`.  `save_doc` writes either to the (possibly
prefixed) `target_file` directly under the output root, or to
`{url.strip('/')}/index.html`; it is modelled as returning the written path
relative to the output root.  String-valued fields are modelled as strings
(Python f-strings would `str()` anything else). -/

/-- `config.get("content", {}).get("languages", {}).get(language, {})
.get("skip_language_path_in_url", False)` as a truthy flag. -/
def skip_language_flag (config : Dict) (lang : String) : Bool :=
  match getPath config ["content", "languages", lang] with
  | some (.vmap m) =>
    match pgetVal m "skip_language_path_in_url" with
    | some v => pyTruthy v
    | none => false
  | _ => false

/-- `add_url_to_doc` (gen.py lines 458-482). -/
def add_url_to_doc (config : Dict) (doc : Dict) : Except String Dict :=
  let doc := match pgetVal doc "target_file" with
    | some tf => psetVal doc "url" tf
    | none => doc
  match pgetVal doc "language" with
  | none => .error ("Doc missing 'language': " ++ pgetStrD doc "name" "")
  | some (.vstr language) =>
    match pgetVal doc "url" with
    | none => .error "KeyError: 'url'"
    | some (.vstr base_url) =>
      if !skip_language_flag config language then
        let doc := psetVal doc "url" (.vstr (language ++ "/" ++ base_url))
        match pgetVal doc "target_file" with
        | some (.vstr tf) =>
          .ok (psetVal doc "target_file" (.vstr (language ++ "/" ++ tf)))
        | some _ => .error "TypeError: non-string target_file"
        | none => .ok doc
      else .ok (psetVal doc "url" (.vstr base_url))
    | some _ => .error "TypeError: non-string url"
  | some _ => .error "TypeError: non-string language"

/-- The `else` branch of `save_doc`: `{url.strip('/')}/index.html`, failing
on an empty slug. -/
def save_doc_slug (doc : Dict) : Except String String :=
  let doc_slug := pyStrip '/' (pgetStrD doc "url" "")
  if doc_slug = "" then
    .error ("Document '" ++ pgetStrD doc "title" "??" ++ "' missing URL")
  else .ok (doc_slug ++ "/index.html")

/-- `save_doc` (gen.py lines 916-940), returning the path written relative to
the output root. -/
def save_doc (doc : Dict) : Except String String :=
  match pgetVal doc "target_file" with
  | some tf =>
    if pyTruthy tf then
      match tf with
      | .vstr t => .ok t
      | _ => .error "TypeError: non-string target_file path"
    else save_doc_slug doc
  | none => save_doc_slug doc

/-- C8 counterexample: a document carrying `target_file: "feed.xml"` through
URL enrichment (language `en`, no `skip_language_path_in_url` flag) is
written at `en/feed.xml`, not at `feed.xml` directly under the output
root. -/
theorem save_doc_feed_counterexample :
    (add_url_to_doc [] [("name", .vstr "feed"), ("target_file", .vstr "feed.xml"),
        ("language", .vstr "en")]).bind save_doc
      = .ok "en/feed.xml" ∧ ("en/feed.xml" : String) ≠ "feed.xml" := by
  exact ⟨rfl, by decide⟩

/-- C8 (amended): a document with a string `target_file` is written directly
at the (language-prefixed, unless the language sets
`skip_language_path_in_url`) target path under the output root, never under a
URL-slug directory; a document without `target_file` is written to
`{url.strip('/')}/index.html` provided the stripped URL is non-empty. -/
theorem save_doc_target_file_spec (config doc : Dict) (t lang : String)
    (ht : pgetVal doc "target_file" = some (.vstr t)) (htne : t ≠ "")
    (hlang : pgetVal doc "language" = some (.vstr lang)) :
    ((add_url_to_doc config doc).bind save_doc
      = .ok (if skip_language_flag config lang then t else lang ++ "/" ++ t)) ∧
    (∀ (doc2 : Dict) (u : String), pgetVal doc2 "target_file" = none →
      pgetVal doc2 "url" = some (.vstr u) → pyStrip '/' u ≠ "" →
      save_doc doc2 = .ok (pyStrip '/' u ++ "/index.html")) := by
  constructor
  · have hlang1 : pgetVal (psetVal doc "url" (.vstr t)) "language" = some (.vstr lang) := by
      rw [pgetVal_psetVal_ne _ _ _ _ (by decide)]; exact hlang
    have hurl1 : pgetVal (psetVal doc "url" (.vstr t)) "url" = some (.vstr t) :=
      pgetVal_psetVal_self _ _ _
    have htf1 : pgetVal (psetVal doc "url" (.vstr t)) "target_file" = some (.vstr t) := by
      rw [pgetVal_psetVal_ne _ _ _ _ (by decide)]; exact ht
    cases hskip : skip_language_flag config lang with
    | false =>
      have htf2 : pgetVal (psetVal (psetVal doc "url" (.vstr t)) "url"
          (.vstr (lang ++ "/" ++ t))) "target_file" = some (.vstr t) := by
        rw [pgetVal_psetVal_ne _ _ _ _ (by decide)]; exact htf1
      have hptne : lang ++ "/" ++ t ≠ "" := by
        intro h
        have hl := congrArg String.length h
        rw [String.length_append, String.length_append] at hl
        have h1 : ("/" : String).length = 1 := rfl
        have h2 : ("" : String).length = 0 := rfl
        rw [h1, h2] at hl
        omega
      have hbne : ((lang ++ "/" ++ t) == "") = false := by simpa using hptne
      simp only [add_url_to_doc, ht, hlang1, hurl1, hskip, Bool.not_false, if_true, htf2,
        Except.bind, save_doc, pgetVal_psetVal_self, pyTruthy, hbne, Bool.not_false,
        if_pos, if_true]
      simp
    | true =>
      have hbne : (t == "") = false := by simpa using htne
      have htf3 : pgetVal (psetVal (psetVal doc "url" (.vstr t)) "url" (.vstr t))
          "target_file" = some (.vstr t) := by
        rw [pgetVal_psetVal_ne _ _ _ _ (by decide)]; exact htf1
      simp only [add_url_to_doc, ht, hlang1, hurl1, hskip, Bool.not_true, if_false]
      simp [Except.bind, save_doc, htf3, pyTruthy, hbne]
  · intro doc2 u htf hurl hslug
    simp only [save_doc, htf, save_doc_slug, pgetStrD, hurl, hslug, if_false]

/-- Witness for `save_doc_target_file_spec`: with
`skip_language_path_in_url: true` the feed really lands at `feed.xml`. -/
theorem save_doc_target_file_spec_witness :
    (add_url_to_doc
        [("content", .vmap [("languages", .vmap
          [("en", .vmap [("skip_language_path_in_url", .vbool true)])])])]
        [("target_file", .vstr "feed.xml"), ("language", .vstr "en")]).bind save_doc
      = .ok "feed.xml" := by
  have h := (save_doc_target_file_spec
      [("content", .vmap [("languages", .vmap
        [("en", .vmap [("skip_language_path_in_url", .vbool true)])])])]
      [("target_file", .vstr "feed.xml"), ("language", .vstr "en")]
      "feed.xml" "en" rfl (by decide) rfl).1
  exact h

/-! ### Navigation links (`add_navigation_links_to_docs`, gen.py
lines 528-553)

Posts (already sorted by date descending) are grouped by
`post.get("language", "en")` and, within each group, post `i` points `next`
to the group's post `i-1` and `prev` to post `i+1`, with empty strings at the
boundaries.  The Python in-place mutation is rendered positionally: the post
at list position `j` receives the fields determined by its index inside its
language group. -/

/-- `post.get("language", "en")` (pipeline languages are strings). -/
def effLang (d : Dict) : String := pgetStrD d "language" "en"

/-- `lang_posts[i].get(key, "")` used for the navigation fields. -/
def navField (g : List Dict) (i : Nat) (key : String) : Val :=
  match g.get? i with
  | some q => (pgetVal q key).getD (.vstr "")
  | none => .vstr ""

/-- The four navigation assignments for the post at index `i` of its language
group `g` (gen.py lines 540-553). -/
def navDoc (g : List Dict) (i : Nat) (p : Dict) : Dict :=
  psetVal
    (psetVal
      (psetVal
        (psetVal p "next_post_url" (if 0 < i then navField g (i - 1) "url" else .vstr ""))
        "next_post_title" (if 0 < i then navField g (i - 1) "title" else .vstr ""))
      "prev_post_url" (if i < g.length - 1 then navField g (i + 1) "url" else .vstr ""))
    "prev_post_title" (if i < g.length - 1 then navField g (i + 1) "title" else .vstr "")

/-- `add_navigation_links_to_docs` (gen.py lines 528-553). -/
def add_navigation_links_to_docs (posts : List Dict) : List Dict :=
  posts.mapIdx (fun j p =>
    navDoc (posts.filter (fun q => effLang q == effLang p))
      ((posts.take j).filter (fun q => effLang q == effLang p)).length p)

/-- Days since 1970-01-01 of a civil date (standard civil-from-days
inverse). -/
def daysFromCivil (y m d : Int) : Int :=
  let y' := if m ≤ 2 then y - 1 else y
  let era := (if 0 ≤ y' then y' else y' - 399) / 400
  let yoe := y' - era * 400
  let doy := (153 * (if 2 < m then m - 3 else m + 9) + 2) / 5 + d - 1
  let doe := yoe * 365 + yoe / 4 - yoe / 100 + doy
  era * 146097 + doe - 719468

/-- The instant of an aware datetime in seconds since the epoch — what
Python datetime comparison (and hence the post sort) compares. -/
def toInstant (dt : PyDatetime) : Int :=
  daysFromCivil dt.year dt.month dt.day * 86400 +
    dt.hour * 3600 + dt.minute * 60 + dt.second - dt.tzMin * 60

/-- Sort key of `posts.sort(key=lambda p: p.get("date"), reverse=True)`:
enriched posts always carry a parsed datetime in `date`. -/
def postDateInstant (d : Dict) : Int :=
  match pgetVal d "date" with
  | some (.vdate dt) => toInstant dt
  | _ => 0

theorem pgetVal_navDoc (g : List Dict) (i : Nat) (p : Dict) :
    pgetVal (navDoc g i p) "next_post_url"
        = some (if 0 < i then navField g (i - 1) "url" else .vstr "") ∧
    pgetVal (navDoc g i p) "next_post_title"
        = some (if 0 < i then navField g (i - 1) "title" else .vstr "") ∧
    pgetVal (navDoc g i p) "prev_post_url"
        = some (if i < g.length - 1 then navField g (i + 1) "url" else .vstr "") ∧
    pgetVal (navDoc g i p) "prev_post_title"
        = some (if i < g.length - 1 then navField g (i + 1) "title" else .vstr "") := by
  unfold navDoc
  refine ⟨?_, ?_, ?_, ?_⟩
  · rw [pgetVal_psetVal_ne _ _ _ _ (by decide), pgetVal_psetVal_ne _ _ _ _ (by decide),
      pgetVal_psetVal_ne _ _ _ _ (by decide), pgetVal_psetVal_self]
  · rw [pgetVal_psetVal_ne _ _ _ _ (by decide), pgetVal_psetVal_ne _ _ _ _ (by decide),
      pgetVal_psetVal_self]
  · rw [pgetVal_psetVal_ne _ _ _ _ (by decide), pgetVal_psetVal_self]
  · rw [pgetVal_psetVal_self]

/-- A list element keeps its position inside the filtered list: the element
at `j` with `P` true sits in `ps.filter P` at the index counting earlier
`P`-elements. -/
theorem filter_get?_spec {α : Type} (P : α → Bool) :
    ∀ (ps : List α) (j : Nat) (p : α), ps.get? j = some p → P p = true →
      (ps.filter P).get? ((ps.take j).filter P).length = some p := by
  intro ps
  induction ps with
  | nil => intro j p h _; simp at h
  | cons a as ih =>
    intro j p h hP
    cases j with
    | zero =>
      have hp : a = p := by simpa using h
      subst hp
      simp [List.filter_cons, hP]
    | succ j' =>
      have h' : as.get? j' = some p := by simpa using h
      by_cases ha : P a
      · simpa [List.take_succ_cons, List.filter_cons, ha] using ih j' p h' hP
      · have ha' : P a = false := by simpa using ha
        simpa [List.take_succ_cons, List.filter_cons, ha'] using ih j' p h' hP

theorem get?_mapIdx_spec {α β : Type} (l : List α) (f : Nat → α → β) (j : Nat) (p : α)
    (h : l.get? j = some p) : (l.mapIdx f).get? j = some (f j p) := by
  rcases List.get?_eq_some.mp h with ⟨hlt, hget⟩
  have h2 : j < (l.mapIdx f).length := by
    simpa [List.length_mapIdx] using hlt
  rw [List.get?_eq_get h2, List.get_mapIdx l f j hlt, hget]

/-- The language group of `l` inside a post list (`posts_by_language[l]`). -/
def langGroup (posts : List Dict) (l : String) : List Dict :=
  posts.filter (fun q => effLang q == l)

/-- Index of the post at list position `j` inside its language group. -/
def langGroupIndex (posts : List Dict) (l : String) (j : Nat) : Nat :=
  ((posts.take j).filter (fun q => effLang q == l)).length

/-- C6: in a language group of `N` posts sorted by date descending, after
navigation assignment the post at group index 0 has empty `next_post_url`
and `next_post_title`, the post at group index `N-1` has empty
`prev_post_url`/`prev_post_title`, and every other post's `next_*` fields
come from its date-adjacent newer neighbour (group index `i-1`) and `prev_*`
fields from its older neighbour (group index `i+1`). -/
theorem add_navigation_links_spec (posts : List Dict) (l : String) (j : Nat) (p : Dict)
    (hsorted : (langGroup posts l).Pairwise
      (fun a b => postDateInstant b ≤ postDateInstant a))
    (hj : posts.get? j = some p) (hl : effLang p = l) :
    (add_navigation_links_to_docs posts).length = posts.length ∧
    (langGroup posts l).get? (langGroupIndex posts l j) = some p ∧
    (add_navigation_links_to_docs posts).get? j
      = some (navDoc (langGroup posts l) (langGroupIndex posts l j) p) ∧
    (langGroupIndex posts l j = 0 →
      pgetVal (navDoc (langGroup posts l) (langGroupIndex posts l j) p) "next_post_url"
          = some (.vstr "") ∧
      pgetVal (navDoc (langGroup posts l) (langGroupIndex posts l j) p) "next_post_title"
          = some (.vstr "")) ∧
    (0 < langGroupIndex posts l j →
      pgetVal (navDoc (langGroup posts l) (langGroupIndex posts l j) p) "next_post_url"
          = some (navField (langGroup posts l) (langGroupIndex posts l j - 1) "url") ∧
      pgetVal (navDoc (langGroup posts l) (langGroupIndex posts l j) p) "next_post_title"
          = some (navField (langGroup posts l) (langGroupIndex posts l j - 1) "title") ∧
      ∀ q, (langGroup posts l).get? (langGroupIndex posts l j - 1) = some q →
        postDateInstant p ≤ postDateInstant q) ∧
    (langGroupIndex posts l j = (langGroup posts l).length - 1 →
      pgetVal (navDoc (langGroup posts l) (langGroupIndex posts l j) p) "prev_post_url"
          = some (.vstr "") ∧
      pgetVal (navDoc (langGroup posts l) (langGroupIndex posts l j) p) "prev_post_title"
          = some (.vstr "")) ∧
    (langGroupIndex posts l j < (langGroup posts l).length - 1 →
      pgetVal (navDoc (langGroup posts l) (langGroupIndex posts l j) p) "prev_post_url"
          = some (navField (langGroup posts l) (langGroupIndex posts l j + 1) "url") ∧
      pgetVal (navDoc (langGroup posts l) (langGroupIndex posts l j) p) "prev_post_title"
          = some (navField (langGroup posts l) (langGroupIndex posts l j + 1) "title") ∧
      ∀ q, (langGroup posts l).get? (langGroupIndex posts l j + 1) = some q →
        postDateInstant q ≤ postDateInstant p) := by
  have hP : (fun q => effLang q == l) p = true := by simp [hl]
  have hgy : (langGroup posts l).get? (langGroupIndex posts l j) = some p :=
    filter_get?_spec _ posts j p hj hP
  have hgy2 : (langGroup posts l)[langGroupIndex posts l j]? = some p := by
    rw [← List.get?_eq_getElem?]; exact hgy
  rcases List.getElem?_eq_some.mp hgy2 with ⟨hilt, hgi⟩
  refine ⟨?_, hgy, ?_, ?_, ?_, ?_, ?_⟩
  · simp [add_navigation_links_to_docs, List.length_mapIdx]
  · have hout := get?_mapIdx_spec posts
      (fun j p =>
        navDoc (posts.filter (fun q => effLang q == effLang p))
          ((posts.take j).filter (fun q => effLang q == effLang p)).length p) j p hj
    simpa [add_navigation_links_to_docs, langGroup, langGroupIndex, hl] using hout
  · intro hi0
    have hn := pgetVal_navDoc (langGroup posts l) (langGroupIndex posts l j) p
    rw [hi0] at hn ⊢
    simpa using ⟨hn.1, hn.2.1⟩
  · intro hipos
    have hn := pgetVal_navDoc (langGroup posts l) (langGroupIndex posts l j) p
    refine ⟨by rw [hn.1, if_pos hipos], by rw [hn.2.1, if_pos hipos], ?_⟩
    intro q hq
    have hq2 : (langGroup posts l)[langGroupIndex posts l j - 1]? = some q := by
      rw [← List.get?_eq_getElem?]; exact hq
    rcases List.getElem?_eq_some.mp hq2 with ⟨hqlt, hqi⟩
    have hr := (List.pairwise_iff_getElem.mp hsorted)
      (langGroupIndex posts l j - 1) (langGroupIndex posts l j) hqlt hilt
      (by omega)
    rw [hqi, hgi] at hr
    exact hr
  · intro hilast
    have hn := pgetVal_navDoc (langGroup posts l) (langGroupIndex posts l j) p
    rw [hilast] at hn ⊢
    exact ⟨by rw [hn.2.2.1, if_neg (by omega)], by rw [hn.2.2.2, if_neg (by omega)]⟩
  · intro hilt'
    have hn := pgetVal_navDoc (langGroup posts l) (langGroupIndex posts l j) p
    refine ⟨by rw [hn.2.2.1, if_pos hilt'], by rw [hn.2.2.2, if_pos hilt'], ?_⟩
    intro q hq
    have hq2 : (langGroup posts l)[langGroupIndex posts l j + 1]? = some q := by
      rw [← List.get?_eq_getElem?]; exact hq
    rcases List.getElem?_eq_some.mp hq2 with ⟨hqlt, hqi⟩
    have hr := (List.pairwise_iff_getElem.mp hsorted)
      (langGroupIndex posts l j) (langGroupIndex posts l j + 1) hilt hqlt
      (by omega)
    rw [hqi, hgi] at hr
    exact hr

/-- Three one-language demo posts sorted by date descending. -/
def demoPosts : List Dict :=
  [[("name", .vstr "p1"), ("title", .vstr "One"), ("url", .vstr "en/one"),
    ("language", .vstr "en"), ("date", .vdate ⟨2024, 3, 1, 0, 0, 0, 0⟩)],
   [("name", .vstr "p2"), ("title", .vstr "Two"), ("url", .vstr "en/two"),
    ("language", .vstr "en"), ("date", .vdate ⟨2024, 2, 1, 0, 0, 0, 0⟩)],
   [("name", .vstr "p3"), ("title", .vstr "Three"), ("url", .vstr "en/three"),
    ("language", .vstr "en"), ("date", .vdate ⟨2024, 1, 1, 0, 0, 0, 0⟩)]]

/-- Witness for `add_navigation_links_spec`: the middle demo post links next
to the newer post's URL and prev to the older post's URL. -/
theorem add_navigation_links_spec_witness :
    pgetVal (navDoc (langGroup demoPosts "en") (langGroupIndex demoPosts "en" 1)
        (demoPosts.get ⟨1, by decide⟩)) "next_post_url" = some (.vstr "en/one") ∧
    pgetVal (navDoc (langGroup demoPosts "en") (langGroupIndex demoPosts "en" 1)
        (demoPosts.get ⟨1, by decide⟩)) "prev_post_url" = some (.vstr "en/three") := by
  have h := add_navigation_links_spec demoPosts "en" 1 (demoPosts.get ⟨1, by decide⟩)
    (by decide) rfl rfl
  exact ⟨(h.2.2.2.2.1 (by decide)).1, (h.2.2.2.2.2.2 (by decide)).1⟩

/-! ### Link validation crawler (`scan_valid_urls_from_output` gen.py
lines 1078-1128, `is_valid_url` gen.py lines 1157-1202)

The output tree is modelled as a list of files, each a non-empty list of
path segments with the file name last.  Walking it yields exactly the URL
contributions of the Python `os.walk` loop. -/

/-- Relative path segments joined with `/` (POSIX rendering of
`Path.relative_to`). -/
def joinPath (segs : List String) : String := String.intercalate "/" segs

/-- The non-empty ancestor directories of a file: the directories `os.walk`
visits on the way to it (each contributes a valid URL). -/
def ancestorDirs (file : List String) : List String :=
  (List.range file.dropLast.length).map (fun n => joinPath (file.dropLast.take (n + 1)))

/-- `scan_valid_urls_from_output`: every directory contributes its relative
path; an `index.html` contributes its directory's path (`""` at the root);
any other file contributes its own path; the server-created `"pub"` URL is
appended.  The valid-URL set is modelled as a list queried by membership. -/
def scan_valid_urls_from_output (files : List (List String)) : List String :=
  (files.map ancestorDirs).flatten ++
    (files.map (fun f =>
      if f.getLast? = some "index.html" then joinPath f.dropLast else joinPath f)) ++
    ["pub"]

/-- The normalization-and-membership tail of `is_valid_url` (gen.py
lines 1179-1202), reached when the URL is internal and has no doubled
slashes. -/
def is_valid_norm (url : String) (valid_urls : List String) (base_url : String) : Bool :=
  let path :=
    if pyStartsWith url base_url then pyStrip '/' (pyReplaceAll url base_url "")
    else pyReplaceAll (pyReplaceAll (pyLStrip '/' url) "../" "") "./" ""
  let path := takeUntilChar '#' (takeUntilChar '?' path)
  let path := pyRStrip '/' path
  if path = "" then true
  else
    let path :=
      if path = "index.html" then ""
      else if pyEndsWith path "/index.html" then pyTake (pyLen path - 10) path
      else path
    valid_urls.contains path || valid_urls.contains (path ++ "/")

/-- `is_valid_url` (gen.py lines 1157-1202). -/
def is_valid_url (url : String) (valid_urls : List String) (base_url : String) : Bool :=
  if !pyStartsWith url base_url && !pyStartsWith url "/" && !pyStartsWith url "./" &&
      !pyStartsWith url "../" then true
  else if pyStartsWith url "http://" || pyStartsWith url "https://" then
    (if containsSub (if pyStartsWith url "http://" then pyDrop 7 url else pyDrop 8 url) "//"
      then false else is_valid_norm url valid_urls base_url)
  else if containsSub url "//" then false
  else is_valid_norm url valid_urls base_url

/-- C9: with an output tree containing `about/index.html`, the links
`/about/` and `/about` normalize to `about` and pass, but
`/about/index.html` is rejected: `path[:-10]` removes only the ten
characters of `"index.html"` (the adjacent comment says `/index.html`),
leaving `about/`, which is in the valid-URL set neither as `about/` nor as
`about//`; `/aboot/` fails as expected. -/
theorem is_valid_url_index_html_bug :
    scan_valid_urls_from_output [["about", "index.html"]] = ["about", "about", "pub"] ∧
    is_valid_url "/about/" (scan_valid_urls_from_output [["about", "index.html"]])
        "https://example.com" = true ∧
    is_valid_url "/about" (scan_valid_urls_from_output [["about", "index.html"]])
        "https://example.com" = true ∧
    is_valid_url "/about/index.html" (scan_valid_urls_from_output [["about", "index.html"]])
        "https://example.com" = false ∧
    is_valid_url "/aboot/" (scan_valid_urls_from_output [["about", "index.html"]])
        "https://example.com" = false := by
  refine ⟨rfl, by decide, by decide, by decide, by decide⟩

/-! ### Slash trimming (`trim_slashes_from_config`, gen.py lines 1352-1368)

`add_processed_content_to_config` (gen.py lines 295-304) runs
`trim_slashes_from_config` on the whole configuration tree immediately
before `validate_content_urls` and before the generate/validate phases
consume it. -/

mutual

/-- `trim_slashes` on one value: strings lose all leading and trailing
slashes, dicts and lists recurse, everything else is untouched. -/
def trim_slashes_val : Val → Val
  | .vstr s => .vstr (pyStrip '/' s)
  | .vmap m => .vmap (trim_slashes_pairs m)
  | .vlist l => .vlist (trim_slashes_list l)
  | v => v
termination_by v => sizeOf v

/-- `trim_slashes` over the bindings of a dict. -/
def trim_slashes_pairs : List (String × Val) → List (String × Val)
  | [] => []
  | (k, v) :: rest => (k, trim_slashes_val v) :: trim_slashes_pairs rest
termination_by m => sizeOf m

/-- `trim_slashes` over the items of a list. -/
def trim_slashes_list : List Val → List Val
  | [] => []
  | v :: rest => trim_slashes_val v :: trim_slashes_list rest
termination_by l => sizeOf l

end

/-- `trim_slashes_from_config` (gen.py lines 1352-1368). -/
def trim_slashes_from_config (config : Dict) : Dict :=
  trim_slashes_pairs config

mutual

/-- Every string value reachable in a value, in traversal order. -/
def stringsVal : Val → List String
  | .vstr s => [s]
  | .vmap m => stringsPairs m
  | .vlist l => stringsList l
  | _ => []
termination_by v => sizeOf v

/-- Every string value reachable in a dict's values. -/
def stringsPairs : List (String × Val) → List String
  | [] => []
  | (_, v) :: rest => stringsVal v ++ stringsPairs rest
termination_by m => sizeOf m

/-- Every string value reachable in a list. -/
def stringsList : List Val → List String
  | [] => []
  | v :: rest => stringsVal v ++ stringsList rest
termination_by l => sizeOf l

end

mutual

theorem stringsVal_trim : (v : Val) →
    stringsVal (trim_slashes_val v) = (stringsVal v).map (pyStrip '/')
  | .vstr s => by simp [trim_slashes_val, stringsVal]
  | .vint n => by simp [trim_slashes_val, stringsVal]
  | .vbool b => by simp [trim_slashes_val, stringsVal]
  | .vdate d => by simp [trim_slashes_val, stringsVal]
  | .vnone => by simp [trim_slashes_val, stringsVal]
  | .vmap m => by
    have h := stringsPairs_trim m
    simpa [trim_slashes_val, stringsVal] using h
  | .vlist l => by
    have h := stringsList_trim l
    simpa [trim_slashes_val, stringsVal] using h
termination_by v => sizeOf v

theorem stringsPairs_trim : (m : List (String × Val)) →
    stringsPairs (trim_slashes_pairs m) = (stringsPairs m).map (pyStrip '/')
  | [] => by simp [trim_slashes_pairs, stringsPairs]
  | (k, v) :: rest => by
    have h1 := stringsVal_trim v
    have h2 := stringsPairs_trim rest
    simp [trim_slashes_pairs, stringsPairs, h1, h2]
termination_by m => sizeOf m

theorem stringsList_trim : (l : List Val) →
    stringsList (trim_slashes_list l) = (stringsList l).map (pyStrip '/')
  | [] => by simp [trim_slashes_list, stringsList]
  | v :: rest => by
    have h1 := stringsVal_trim v
    have h2 := stringsList_trim rest
    simp [trim_slashes_list, stringsList, h1, h2]
termination_by l => sizeOf l

end

theorem head?_dropWhile_not (p : Char → Bool) :
    ∀ (l : List Char) (c : Char), (l.dropWhile p).head? = some c → p c = false := by
  intro l
  induction l with
  | nil => intro c h; simp at h
  | cons a as ih =>
    intro c h
    rw [List.dropWhile_cons] at h
    by_cases ha : p a
    · rw [if_pos ha] at h; exact ih c h
    · rw [if_neg ha] at h
      have hac : a = c := by simpa using h
      subst hac
      simpa using ha

theorem getLast?_dropWhile (p : Char → Bool) :
    ∀ (l : List Char), l.dropWhile p ≠ [] → (l.dropWhile p).getLast? = l.getLast? := by
  intro l
  induction l with
  | nil => intro h; simp at h
  | cons a as ih =>
    intro h
    rw [List.dropWhile_cons] at h ⊢
    by_cases ha : p a
    · rw [if_pos ha] at h ⊢
      have has : as ≠ [] := by
        intro hnil
        subst hnil
        simp at h
      rw [ih h]
      cases as with
      | nil => exact absurd rfl has
      | cons b bs => rw [List.getLast?_cons_cons]
    · rw [if_neg ha]

theorem strip_list_no_slash (l : List Char) :
    (((l.dropWhile (· == '/')).reverse.dropWhile (· == '/')).reverse).head? ≠ some '/' ∧
    (((l.dropWhile (· == '/')).reverse.dropWhile (· == '/')).reverse).getLast? ≠ some '/' := by
  constructor
  · intro h
    rw [List.head?_reverse] at h
    by_cases hnil : (l.dropWhile (· == '/')).reverse.dropWhile (· == '/') = []
    · rw [hnil] at h; simp at h
    · rw [getLast?_dropWhile _ _ hnil, List.getLast?_reverse] at h
      have := head?_dropWhile_not (· == '/') l '/' h
      simp at this
  · intro h
    rw [List.getLast?_reverse] at h
    have := head?_dropWhile_not (· == '/') (l.dropWhile (· == '/')).reverse '/' h
    simp at this

/-- Stripping `/` from both ends leaves a string that neither begins nor
ends with `/`. -/
theorem pyStrip_no_slash (s : String) :
    (pyStrip '/' s).toList.head? ≠ some '/' ∧
    (pyStrip '/' s).toList.getLast? ≠ some '/' :=
  strip_list_no_slash s.toList

/-- C10: after `trim_slashes_from_config` — which
`add_processed_content_to_config` applies to the whole configuration tree
immediately before URL uniqueness validation and before rendering consumes
it — every string value anywhere in the tree equals the original with all
leading and trailing `/` stripped in place, so no string value in the tree
(urls, target files, absolute file paths) begins or ends with a slash. -/
theorem trim_slashes_from_config_spec (cfg : Dict) :
    stringsPairs (trim_slashes_from_config cfg) = (stringsPairs cfg).map (pyStrip '/') ∧
    ∀ s ∈ stringsPairs (trim_slashes_from_config cfg),
      s.toList.head? ≠ some '/' ∧ s.toList.getLast? ≠ some '/' := by
  refine ⟨stringsPairs_trim cfg, ?_⟩
  intro s hs
  rw [trim_slashes_from_config, stringsPairs_trim cfg] at hs
  rcases List.mem_map.mp hs with ⟨t, _, rfl⟩
  exact pyStrip_no_slash t

/-- Witness for `trim_slashes_from_config_spec` on a config with a slashed
url and an absolute file path. -/
theorem trim_slashes_from_config_spec_witness :
    stringsPairs (trim_slashes_from_config
        [("url", .vstr "/en/post/"),
         ("doc", .vmap [("file_path", .vstr "/site/content/a.md")])])
      = ["en/post", "site/content/a.md"] ∧
    ("en/post" : String).toList.head? ≠ some '/' := by
  have h := trim_slashes_from_config_spec
    [("url", .vstr "/en/post/"), ("doc", .vmap [("file_path", .vstr "/site/content/a.md")])]
  have h1 : stringsPairs (trim_slashes_from_config
      [("url", .vstr "/en/post/"), ("doc", .vmap [("file_path", .vstr "/site/content/a.md")])])
      = ["en/post", "site/content/a.md"] := by
    rw [h.1]
    simp only [stringsPairs, stringsVal, List.map]
    decide
  refine ⟨h1, ?_⟩
  have h2 := h.2 "en/post" (by rw [h1]; simp)
  exact h2.1

/-! ### Document processing (`process_single_doc` gen.py lines 341-384,
`process_docs` gen.py lines 307-338)

External collaborators become an explicit environment: the file system
(`none` models an `IOError`), the markdown converter (table-of-contents
title and body in, HTML out) and the YAML parser applied to front-matter
text (`none` models a `yaml.YAMLError`; front matter parses to a mapping). -/

structure ExtEnv where
  fs : String → Option String
  md : String → String → String
  yamlFM : String → Option Dict

/-- `parse_front_matter_and_content` (gen.py lines 387-409): split on `---`
with at most two splits; a YAML error degrades to no front matter and the
whole content as body. -/
def parse_front_matter_and_content (E : ExtEnv) (content : String) : Dict × String :=
  if !pyStartsWith content "---" then ([], content)
  else
    match content.splitOn "---" with
    | _ :: p1 :: p2 :: rest =>
      (match E.yamlFM p1 with
       | some fm => (fm, String.intercalate "---" (p2 :: rest))
       | none => ([], content))
    | _ => ([], content)

/-- `add_html_to_doc` (gen.py lines 423-455): markdown files are converted
(with the language's `table_of_contents_title` when configured), everything
else passes through. -/
def add_html_to_doc (E : ExtEnv) (config : Dict) (content : String) (doc : Dict) : Dict :=
  let html :=
    if pyEndsWith (pgetStrD doc "file_path" "") ".md" then
      E.md
        (match pgetVal doc "language" with
         | some (.vstr language) =>
           (match getPath config ["content", "languages", language] with
            | some (.vmap lang_config) =>
              (match pgetVal lang_config "table_of_contents_title" with
               | some (.vstr t) => t
               | _ => "Table of Contents")
            | _ => "Table of Contents")
         | _ => "Table of Contents")
        content
    else content
  psetVal doc "html_content" (.vstr html)

/-- `add_read_time_to_doc` (gen.py lines 512-525): word count of the body
floor-divided by the configured words-per-minute (default 200), at least
1. -/
def add_read_time_to_doc (config : Dict) (doc : Dict) : Except String Dict :=
  let wpm : Int :=
    match getPath config ["build", "settings", "read_time_words_per_minute"] with
    | some (.vint n) => n
    | _ => 200
  if wpm = 0 then .error "ZeroDivisionError: integer division by zero"
  else .ok (psetVal doc "read_time"
    (.vint (max 1 (Int.fdiv (wordCount (pgetStrD doc "content" "")) wpm))))

/-- `enrich_doc` (gen.py lines 412-420). -/
def enrich_doc (E : ExtEnv) (config : Dict) (doc : Dict) (body file_path : String) :
    Except String Dict := do
  let doc := add_html_to_doc E config body doc
  let doc ← add_url_to_doc config doc
  let doc ← add_dates_to_doc doc file_path
  add_read_time_to_doc config doc

/-- The multi-language fan-out loop of `process_single_doc` (gen.py
lines 365-376): each language clones the merged document, applies the
overrides, renames to `{name}-{language}` and enriches independently; any
exception inside the loop (`none`) aborts the whole item. -/
def fanOutLanguages (E : ExtEnv) (config : Dict) (doc : Dict) (body file_path : String) :
    List (String × Val) → Option (List Dict)
  | [] => some []
  | (lang, overrides) :: rest =>
    match overrides, pgetVal doc "name" with
    | .vmap ov, some (.vstr base_name) =>
      (match enrich_doc E config
          (psetVal (psetVal (dictUpdate doc ov) "language" (.vstr lang))
            "name" (.vstr (base_name ++ "-" ++ lang)))
          body file_path with
       | .ok d =>
         (match fanOutLanguages E config doc body file_path rest with
          | some ds => some (d :: ds)
          | none => none)
       | .error _ => none)
    | _, _ => none

/-- `process_single_doc` (gen.py lines 341-384).  The lookups before the
`try` (`item["file_path"]`, `item["content_type"]`, the defaults) raise to
the caller; everything inside the `try` — file read, front matter, merge,
fan-out, enrichment — is caught, logged, and turned into the empty list. -/
def process_single_doc (E : ExtEnv) (item : Dict) (config : Dict) :
    Except String (List Dict) := do
  let file_path ←
    match pgetVal item "file_path" with
    | some (.vstr p) => Except.ok p
    | _ => Except.error "KeyError: 'file_path'"
  let content_type ←
    match pgetVal item "content_type" with
    | some (.vstr ct) => Except.ok ct
    | _ => Except.error "KeyError: 'content_type'"
  let defaults ←
    match getPath config ["content", content_type, "defaults"] with
    | some (.vmap ds) => Except.ok ds
    | _ => Except.error "KeyError: 'defaults'"
  match E.fs file_path with
  | none => .ok []
  | some content =>
    let fmBody := parse_front_matter_and_content E content
    let doc := psetVal (dictUpdate (dictUpdate defaults item) fmBody.1)
      "content" (.vstr fmBody.2)
    match pgetVal doc "languages" with
    | some (.vmap langs) =>
      (match fanOutLanguages E config doc fmBody.2 file_path langs with
       | some docs => .ok docs
       | none => .ok [])
    | _ =>
      (match enrich_doc E config doc fmBody.2 file_path with
       | .ok d => .ok [d]
       | .error _ => .ok [])

/-- `.values()` of an `items` mapping (discovery stores one dict per
item). -/
def itemValues (m : List (String × Val)) : List Dict :=
  m.map (fun p => match p.2 with | .vmap d => d | _ => [])

/-- The error collected for a result doc carrying an `error` key
(`f"{doc['file_path']}: {doc['error']}"`). -/
def docError? (doc : Dict) : Option String :=
  match pgetVal doc "error" with
  | some (.vstr e) => some (pgetStrD doc "file_path" "??" ++ ": " ++ e)
  | some _ => some (pgetStrD doc "file_path" "??" ++ ": ??")
  | none => none

/-- Stable insertion keeping descending key order (ties keep original
order), modelling `list.sort(key=..., reverse=True)`. -/
def insertByDesc (key : Dict → Int) (d : Dict) : List Dict → List Dict
  | [] => [d]
  | x :: xs => if key x ≤ key d then d :: x :: xs else x :: insertByDesc key d xs

/-- `posts.sort(key=lambda p: p.get("date"), reverse=True)`. -/
def sortPostsByDateDesc : List Dict → List Dict
  | [] => []
  | d :: ds => insertByDesc postDateInstant d (sortPostsByDateDesc ds)

/-- Stable insertion keeping ascending key order. -/
def insertByAsc (key : Dict → String) (d : Dict) : List Dict → List Dict
  | [] => [d]
  | x :: xs => if decide (key d ≤ key x) then d :: x :: xs else x :: insertByAsc key d xs

/-- `pages.sort(key=lambda p: p.get("nav_title", "zzz"))`. -/
def sortPagesByNavTitle : List Dict → List Dict
  | [] => []
  | d :: ds => insertByAsc (fun p => pgetStrD p "nav_title" "zzz") d (sortPagesByNavTitle ds)

/-- `process_docs` (gen.py lines 307-338): run `process_single_doc` over all
discovered posts and pages through `parallelize` (empty result lists are
falsy and dropped there), collect docs carrying an `error` key into an
aggregate failure, sort, assign navigation, and store the processed items
back into the config. -/
def process_docs (E : ExtEnv) (config : Dict) : Except String (List Dict × Dict) := do
  let posts_items ←
    match getPath config ["content", "posts", "items"] with
    | some (.vmap m) => Except.ok (itemValues m)
    | _ => Except.error "KeyError: posts items"
  let pages_items ←
    match getPath config ["content", "pages", "items"] with
    | some (.vmap m) => Except.ok (itemValues m)
    | _ => Except.error "KeyError: pages items"
  let results ← parallelize (fun l : List Dict => !l.isEmpty) "content files"
    (fun item => process_single_doc E item config) (posts_items ++ pages_items)
  let flat := results.flatten
  let errors := flat.filterMap docError?
  if errors.isEmpty then
    let posts := sortPostsByDateDesc ((flat.filter (fun d => (docError? d).isNone)).filter
      (fun d => pgetStrD d "content_type" "" == "posts"))
    let pages := sortPagesByNavTitle ((flat.filter (fun d => (docError? d).isNone)).filter
      (fun d => !(pgetStrD d "content_type" "" == "posts")))
    let navPosts := add_navigation_links_to_docs posts
    let config := setPath config ["content", "posts", "items"]
      (.vmap (navPosts.map (fun p => (pgetStrD p "name" "", Val.vmap p))))
    let config := setPath config ["content", "pages", "items"]
      (.vmap (pages.map (fun p => (pgetStrD p "name" "", Val.vmap p))))
    .ok (navPosts, config)
  else
    .error ("Process doc failed:\n" ++
      String.intercalate "\n" (errors.map (fun e => "  " ++ e)))

/-- The discovered item of the C1 failing input: a post whose source file
carries no `date`. -/
def c1Item : Dict :=
  [("file_path", .vstr "/s/posts/2024/a.md"), ("content_type", .vstr "posts"),
   ("name", .vstr "a"), ("url", .vstr "a-post"), ("language", .vstr "en")]

/-- A config holding exactly that one discovered post item. -/
def c1Config : Dict :=
  [("content", .vmap
    [("posts", .vmap [("defaults", .vmap []), ("items", .vmap [("a", .vmap c1Item)])]),
     ("pages", .vmap [("defaults", .vmap []), ("items", .vmap [])])])]

/-- A file system with that one file (its body has no front matter and hence
no `date`), an identity markdown converter and a YAML parser that is never
reached. -/
def c1Env : ExtEnv :=
  ⟨fun p => if p == "/s/posts/2024/a.md" then some "hello world body" else none,
   fun _ content => content, fun _ => none⟩

/-- C1: evaluating the code at the failing input.  Enrichment of the only
post raises (missing `date`), `process_single_doc` catches the exception and
returns `[]` (gen.py line 384), `parallelize` drops the falsy empty result
(gen.py line 1330), and `process_docs` — whose error aggregation only fires
for docs carrying an `error` key, which nothing ever produces — returns
successfully with the post silently gone instead of raising an aggregate
error. -/
theorem process_docs_silent_drop_bug :
    process_single_doc c1Env c1Item c1Config = .ok [] ∧
    process_docs c1Env c1Config = .ok ([],
      [("content", .vmap
        [("posts", .vmap [("defaults", .vmap []), ("items", .vmap [])]),
         ("pages", .vmap [("defaults", .vmap []), ("items", .vmap [])])])]) := by
  exact ⟨rfl, rfl⟩

end Bones
